import Mathlib

/-!
Shallow embedding of the incremental ring/clock renderers of the
ArcReactorClock firmware (Multimode_Arc_Reactor_clock), together with the
settings-persistence and theme-selection helpers.

Conventions used throughout:
* C `int` is modelled as `ℤ`; C `%` on `int` is `Int.tmod` (truncated,
  C99 semantics); `float` angle arithmetic only ever sees dyadic/decimal
  rationals in the embedded code paths, so angles are modelled as `ℚ`.
* Drawing is modelled as an emitted list of draw operations; the TFT
  primitives themselves (triangles, circles, text) are external library
  calls, so an operation records exactly the arguments the firmware
  passes to its own drawing helpers.
* Angular coverage of the screen is modelled on one physical turn
  `a ∈ [0, 360)`: an arc `[s, e]` covers `a` iff `a` or `a - 360` lies
  in `[s, e]` (the firmware uses angles in `[-90, 360]`).
-/

/-- Colors from apple_rings_theme.h. -/
def APPLE_RINGS_BG : ℕ := 0x0000

def APPLE_BLUE : ℕ := 0x04FF

def APPLE_GREEN : ℕ := 0x07E0

def APPLE_RED : ℕ := 0xF800

def APPLE_BLUE_BG : ℕ := 0x0219

def APPLE_GREEN_BG : ℕ := 0x0300

def APPLE_RED_BG : ℕ := 0x4000

/-- Ring geometry from apple_rings_theme.h. -/
def HOURS_RING_RADIUS : ℤ := 45

def MINUTES_RING_RADIUS : ℤ := 75

def SECONDS_RING_RADIUS : ℤ := 105

def RING_THICKNESS : ℤ := 16

/-- A drawing operation emitted by the Apple-rings renderer.
`ring` records a `drawRing(screenCenterX, screenCenterY, radius,
thickness, startAngle, endAngle, color)` call; `fillScreen` records
`tft.fillScreen`; `timeDigits` records a `drawTimeDigits()` /
`updateTimeDigits()` call, which only touches the disk strictly inside
the innermost ring. -/
inductive DrawOp where
  | ring (radius thickness : ℤ) (startAngle endAngle : ℚ) (color : ℕ)
  | fillScreen (color : ℕ)
  | timeDigits
deriving DecidableEq, Repr

/-- The global time variables read by the renderers
(`hours`, `minutes`, `seconds`, `is24Hour` in utils.h). -/
structure TimeVars where
  hours : ℤ
  minutes : ℤ
  seconds : ℤ
  is24Hour : Bool
deriving DecidableEq, Repr

/-- The mutable module state of apple_rings_theme.h:
`prevRingHours`, `prevRingMinutes`, `prevRingSeconds`, `fullRedrawDone`. -/
structure RingsState where
  prevRingHours : ℤ
  prevRingMinutes : ℤ
  prevRingSeconds : ℤ
  fullRedrawDone : Bool
deriving DecidableEq, Repr

/-- `hourDegrees` as computed in updateAppleRingsTime /
forceCorrectRingDisplay: 15.0 in 24-hour mode, 30.0 in 12-hour mode. -/
def hourDegrees (is24Hour : Bool) : ℚ :=
  if is24Hour then 15 else 30

/-- `displayHours` as computed in updateAppleRingsTime /
forceCorrectRingDisplay: raw hours in 24-hour mode, `hours % 12` with
0 remapped to 12 in 12-hour mode. -/
def displayHoursOf (is24Hour : Bool) (hours : ℤ) : ℤ :=
  let d := if is24Hour then hours else Int.tmod hours 12
  if is24Hour = false ∧ d = 0 then 12 else d

/-- forceCorrectRingDisplay (apple_rings_theme.h lines 148-202):
clears the screen, draws the three background tracks, draws each
foreground arc for nonzero values (with the 12-hour remap on hours),
draws the digital time, and records the current time as previous. -/
def forceCorrectRingDisplay (t : TimeVars) : RingsState × List DrawOp :=
  let dh := displayHoursOf t.is24Hour t.hours
  let hourFg : List DrawOp :=
    if dh > 0 then
      [DrawOp.ring HOURS_RING_RADIUS RING_THICKNESS (-90)
        (-90 + dh * hourDegrees t.is24Hour) APPLE_BLUE]
    else []
  let minuteFg : List DrawOp :=
    if t.minutes > 0 then
      [DrawOp.ring MINUTES_RING_RADIUS RING_THICKNESS (-90)
        (-90 + t.minutes * 6) APPLE_GREEN]
    else []
  let secondFg : List DrawOp :=
    if t.seconds > 0 then
      [DrawOp.ring SECONDS_RING_RADIUS RING_THICKNESS (-90)
        (-90 + t.seconds * 6) APPLE_RED]
    else []
  (⟨t.hours, t.minutes, t.seconds, true⟩,
    [DrawOp.fillScreen APPLE_RINGS_BG,
     DrawOp.ring HOURS_RING_RADIUS RING_THICKNESS 0 360 APPLE_BLUE_BG,
     DrawOp.ring MINUTES_RING_RADIUS RING_THICKNESS 0 360 APPLE_GREEN_BG,
     DrawOp.ring SECONDS_RING_RADIUS RING_THICKNESS 0 360 APPLE_RED_BG]
    ++ hourFg ++ minuteFg ++ secondFg ++ [DrawOp.timeDigits])

/-- drawAppleRingsInterface (apple_rings_theme.h lines 205-208):
delegates to forceCorrectRingDisplay. -/
def drawAppleRingsInterface (t : TimeVars) : RingsState × List DrawOp :=
  forceCorrectRingDisplay t

/-- The hours-ring branch of updateAppleRingsTime (lines 267-320),
executed only when `hoursChanged`; returns the emitted draw calls. -/
def hoursRingOps (t : TimeVars) (prev : ℤ) : List DrawOp :=
  let dh := displayHoursOf t.is24Hour t.hours
  if t.hours = 0 ∧ (prev = 23 ∨ prev = 11) then
    -- Midnight transition: clear, then background only, no foreground.
    [DrawOp.ring HOURS_RING_RADIUS (RING_THICKNESS + 2) 0 360 APPLE_RINGS_BG,
     DrawOp.ring HOURS_RING_RADIUS RING_THICKNESS 0 360 APPLE_BLUE_BG]
  else
    let clearOps : List DrawOp :=
      if prev = -1 then
        [DrawOp.ring HOURS_RING_RADIUS (RING_THICKNESS + 2) 0 360 APPLE_RINGS_BG]
      else []
    let fgOps : List DrawOp :=
      if dh > 0 then
        [DrawOp.ring HOURS_RING_RADIUS RING_THICKNESS (-90)
          (-90 + dh * hourDegrees t.is24Hour) APPLE_BLUE]
      else if t.is24Hour = false ∧ dh = 12 then
        [DrawOp.ring HOURS_RING_RADIUS RING_THICKNESS (-90) 270 APPLE_BLUE]
      else []
    clearOps
      ++ [DrawOp.ring HOURS_RING_RADIUS RING_THICKNESS 0 360 APPLE_BLUE_BG]
      ++ fgOps

/-- The minutes-ring branch of updateAppleRingsTime (lines 323-365),
executed only when `minutesChanged`. -/
def minutesRingOps (t : TimeVars) (prev : ℤ) : List DrawOp :=
  let minuteReset := (t.minutes = 0 ∧ prev > 0) ∨ prev = -1
  if minuteReset then
    [DrawOp.ring MINUTES_RING_RADIUS (RING_THICKNESS + 2) 0 360 APPLE_RINGS_BG,
     DrawOp.ring MINUTES_RING_RADIUS RING_THICKNESS 0 360 APPLE_GREEN_BG]
  else if t.minutes < prev then
    [DrawOp.ring MINUTES_RING_RADIUS RING_THICKNESS 0 360 APPLE_GREEN_BG]
      ++ (if t.minutes > 0 then
            [DrawOp.ring MINUTES_RING_RADIUS RING_THICKNESS (-90)
              (-90 + t.minutes * 6) APPLE_GREEN]
          else [])
  else
    [DrawOp.ring MINUTES_RING_RADIUS RING_THICKNESS (-90)
      (-90 + t.minutes * 6) APPLE_GREEN]

/-- The seconds-ring branch of updateAppleRingsTime (lines 367-418),
executed only when `secondsChanged`. -/
def secondsRingOps (t : TimeVars) (prev : ℤ) : List DrawOp :=
  if t.seconds = 0 ∧ prev > 0 then
    -- Rollover 59 -> 0: clear wider, redraw background, no foreground.
    [DrawOp.ring SECONDS_RING_RADIUS (RING_THICKNESS + 2) 0 360 APPLE_RINGS_BG,
     DrawOp.ring SECONDS_RING_RADIUS RING_THICKNESS 0 360 APPLE_RED_BG]
  else if prev = -1 then
    [DrawOp.ring SECONDS_RING_RADIUS RING_THICKNESS 0 360 APPLE_RED_BG]
      ++ (if t.seconds > 0 then
            [DrawOp.ring SECONDS_RING_RADIUS RING_THICKNESS (-90)
              (-90 + t.seconds * 6) APPLE_RED]
          else [])
  else
    (if t.seconds < prev then
       [DrawOp.ring SECONDS_RING_RADIUS RING_THICKNESS 0 360 APPLE_RED_BG]
     else [])
      ++ (if t.seconds > 0 then
            [DrawOp.ring SECONDS_RING_RADIUS RING_THICKNESS (-90)
              (-90 + t.seconds * 6) APPLE_RED]
          else [])

/-- updateAppleRingsTime (apple_rings_theme.h lines 254-424): if the
background has not been drawn yet, delegate to drawAppleRingsInterface;
otherwise run each ring branch when its value changed, update the
previous value inside that branch, and refresh the digital time if
anything changed. -/
def updateAppleRingsTime (t : TimeVars) (s : RingsState) : RingsState × List DrawOp :=
  if s.fullRedrawDone = false then
    drawAppleRingsInterface t
  else
    let hoursChanged := t.hours ≠ s.prevRingHours
    let minutesChanged := t.minutes ≠ s.prevRingMinutes
    let secondsChanged := t.seconds ≠ s.prevRingSeconds
    let opsH := if hoursChanged then hoursRingOps t s.prevRingHours else []
    let opsM := if minutesChanged then minutesRingOps t s.prevRingMinutes else []
    let opsS := if secondsChanged then secondsRingOps t s.prevRingSeconds else []
    let opsD : List DrawOp :=
      if hoursChanged ∨ minutesChanged ∨ secondsChanged then [DrawOp.timeDigits] else []
    (⟨if hoursChanged then t.hours else s.prevRingHours,
      if minutesChanged then t.minutes else s.prevRingMinutes,
      if secondsChanged then t.seconds else s.prevRingSeconds,
      true⟩,
     opsH ++ opsM ++ opsS ++ opsD)

/-- Angular coverage of one physical screen position `a ∈ [0, 360)` by
an arc `[s, e]` (the firmware passes angles in `[-90, 360]` to
drawRing): the position is covered iff `a` or its other representative
`a - 360` lies inside `[s, e]`. -/
def covered (s e a : ℚ) : Prop :=
  (s ≤ a ∧ a ≤ e) ∨ (s ≤ a - 360 ∧ a - 360 ≤ e)

instance coveredDecidable (s e a : ℚ) : Decidable (covered s e a) := by
  unfold covered
  infer_instance

/-- The color a draw operation leaves at angular position `a` of the
ring of radius `r`, if it paints that position at all.  A `ring` call
paints a position of its own ring iff its arc covers the angle (the
`thickness + 2` clearing calls cover the same angles and a radially
wider band, so radius alone identifies the ring); `fillScreen` paints
everything; the central time digits never reach any ring (the cleared
disk stops at the inner edge of the innermost ring). -/
def opPaints (r : ℤ) (a : ℚ) : DrawOp → Option ℕ
  | DrawOp.ring r' _ s e c => if r' = r ∧ covered s e a then some c else none
  | DrawOp.fillScreen c => some c
  | DrawOp.timeDigits => none

/-- The color at angular position `a` of the ring of radius `r` after
executing a list of draw operations over an initial color `init`. -/
def ringColorAt (r : ℤ) (init : ℕ) (ops : List DrawOp) (a : ℚ) : ℕ :=
  ops.foldl (fun col op => (opPaints r a op).getD col) init

/-- drawRing (apple_rings_theme.h lines 65-145), modelled at the level
of the primitive (non-crossing) arcs it rasterizes: a call whose end
angle is smaller than its start angle recurses on `[start, 360]` and
`[0, end]`; any other call rasterizes one arc.  The C recursion has no
termination guard, so the model carries fuel and returns `none` when
the fuel runs out (which the C code would answer with unbounded
recursion). -/
def drawRingArcs : ℕ → ℚ → ℚ → Option (List (ℚ × ℚ))
  | 0, _, _ => none
  | fuel + 1, s, e =>
    if e < s then
      match drawRingArcs fuel s 360, drawRingArcs fuel 0 e with
      | some l1, some l2 => some (l1 ++ l2)
      | _, _ => none
    else
      some [(s, e)]

/-- A list of primitive arcs covers angular position `a` iff some arc
`[s, e]` of the list satisfies `s ≤ a ≤ e`. -/
def arcsCover (l : List (ℚ × ℚ)) (a : ℚ) : Prop :=
  ∃ p ∈ l, p.1 ≤ a ∧ a ≤ p.2

/-- `unitAngleDegrees` of the specification: degrees per unit for a
ring of `u` units per revolution.  At `u = 12, 24, 60` this yields the
constants 30.0, 15.0, 6.0 hard-coded in apple_rings_theme.h. -/
def unitAngleDegrees (u : ℚ) : ℚ := 360 / u

/-- The end angle the renderers compute for a value `v` on a ring of
`u` units per revolution: `-90 + v * (360 / u)` (apple_rings_theme.h
lines 305, 357, 401 with `u` instantiated to 12/24/60). -/
def endAngleOf (v u : ℚ) : ℚ := -90 + v * unitAngleDegrees u

/-! ## arc_digital.h -/

/-- Mutable state of arc_digital.h: `prevHours`, `prevMinutes`,
`prevSeconds`, `prevColonState`. -/
structure DigitalState where
  prevHours : ℤ
  prevMinutes : ℤ
  prevSeconds : ℤ
  prevColonState : Bool
deriving DecidableEq, Repr

/-- Text draw operations of updateDigitalTime.  `ntpIsPM` in the input
models the WiFi/getLocalTime AM/PM source (external collaborator):
`some b` when connected, `none` for the manual fallback. -/
inductive DigOp where
  | secondsText (s : ℤ)
  | hoursText (displayHours : ℤ)
  | colonGlyph (shown : Bool)
  | minutesText (m : ℤ)
  | ampmText (isPM : Bool)
deriving DecidableEq, Repr

/-- updateDigitalTime (arc_digital.h lines 224-333): when any of the
time fields or the colon state changed, redraw the changed glyphs and
store the new values; otherwise do nothing. -/
def updateDigitalTime (t : TimeVars) (showColon : Bool) (ntpIsPM : Option Bool)
    (s : DigitalState) : DigitalState × List DigOp :=
  if t.hours ≠ s.prevHours ∨ t.minutes ≠ s.prevMinutes ∨
      t.seconds ≠ s.prevSeconds ∨ showColon ≠ s.prevColonState then
    let displayHours :=
      if t.is24Hour then t.hours
      else if t.hours > 12 then t.hours - 12
      else if t.hours = 0 then 12 else t.hours
    let isPM := ntpIsPM.getD (t.hours ≥ 12)
    let opsS := if t.seconds ≠ s.prevSeconds then [DigOp.secondsText t.seconds] else []
    let opsH :=
      if t.hours ≠ s.prevHours ∨ (t.minutes ≠ s.prevMinutes ∧ t.hours < 10) then
        [DigOp.hoursText displayHours]
      else []
    let opsC := if showColon ≠ s.prevColonState then [DigOp.colonGlyph showColon] else []
    let opsM := if t.minutes ≠ s.prevMinutes then [DigOp.minutesText t.minutes] else []
    let opsA :=
      if t.is24Hour = false ∧ (t.hours ≠ s.prevHours ∨ s.prevHours = -1) then
        [DigOp.ampmText isPM]
      else []
    (⟨t.hours, t.minutes, t.seconds, showColon⟩, opsS ++ opsH ++ opsC ++ opsM ++ opsA)
  else
    (s, [])

/-! ## arc_analog.h -/

/-- Colors and geometry from arc_analog.h. -/
def HOUR_HAND_COLOR : ℕ := 0xFFFF

def MINUTE_HAND_COLOR : ℕ := 0xFFE0

def SECOND_RING_COLOR : ℕ := 0xF800

def CENTER_DOT_COLOR : ℕ := 0x07FF

def ANALOG_RING_THICKNESS : ℤ := 4

def ANALOG_RING_RADIUS : ℤ := 120

def TFT_BLACK : ℕ := 0x0000

/-- C truncation of a float to `int`: toward zero. -/
def cTrunc (q : ℚ) : ℤ := if 0 ≤ q then Int.floor q else Int.ceil q

/-- Mutable state of arc_analog.h: previous hand endpoints, previous
angles, previous second, and the `needClockRefresh` flag. -/
structure AnalogState where
  prevMinuteX : ℤ
  prevMinuteY : ℤ
  prevHourX : ℤ
  prevHourY : ℤ
  prevSecond : ℤ
  prevMinuteAngle : ℚ
  prevHourAngle : ℚ
  needClockRefresh : Bool
deriving DecidableEq, Repr

/-- Environment of updateAnalogClock: the time fields, screen geometry,
and the float `sin`/`cos` of the display library, abstracted as
functions of the angle in degrees (the firmware converts to radians
with DEG_TO_RAD before applying them). -/
structure AnalogEnv where
  hours : ℤ
  minutes : ℤ
  seconds : ℤ
  screenCenterX : ℤ
  screenCenterY : ℤ
  screenRadius : ℤ
  sinDeg : ℚ → ℚ
  cosDeg : ℚ → ℚ

/-- Draw operations of updateAnalogClock.  `secondsArc` records a
`drawSecondsArc(cx, cy, start, end, RING_RADIUS, RING_THICKNESS, c)`
call; `lineTo` records a `tft.drawLine` call; `clockFace` records a
`drawClockFace()` call; `centerDot` the center `fillCircle`. -/
inductive AnalogOp where
  | secondsArc (startAngle endAngle : ℤ) (color : ℕ)
  | lineTo (x0 y0 x1 y1 : ℤ) (color : ℕ)
  | clockFace
  | centerDot
deriving DecidableEq, Repr

/-- The 5x5 grid of offsets `(-2..2) × (-2..2)` the firmware uses to
erase a hand with thick black lines. -/
def eraseOffsets : List (ℤ × ℤ) :=
  (List.range 5).flatMap fun i =>
    (List.range 5).map fun j => ((i : ℤ) - 2, (j : ℤ) - 2)

/-- The thick black erase strokes over an old hand endpoint. -/
def eraseHandOps (cx cy px py : ℤ) : List AnalogOp :=
  eraseOffsets.map fun ij =>
    AnalogOp.lineTo (cx + ij.1) (cy + ij.2) (px + ij.1) (py + ij.2) TFT_BLACK

/-- Hand angles computed at the top of updateAnalogClock:
`minutes * 6 + seconds * 0.1` and `hours * 30 + minutes * 0.5`. -/
def minuteAngleOf (e : AnalogEnv) : ℚ := (e.minutes : ℚ) * 6 + (e.seconds : ℚ) * (1 / 10)

def hourAngleOf (e : AnalogEnv) : ℚ := (e.hours : ℚ) * 30 + (e.minutes : ℚ) * (1 / 2)

/-- Hand lengths `screenRadius * 0.7` / `screenRadius * 0.5`, truncated
to `int`. -/
def minuteHandLengthOf (e : AnalogEnv) : ℤ := cTrunc ((e.screenRadius : ℚ) * (7 / 10))

def hourHandLengthOf (e : AnalogEnv) : ℤ := cTrunc ((e.screenRadius : ℚ) * (1 / 2))

/-- Hand endpoints `center ± trig(angle) * length`, truncated to `int`
(the abstract `sinDeg`/`cosDeg` stand for the library float sin/cos
after the degree-to-radian conversion). -/
def minuteHandX (e : AnalogEnv) : ℤ :=
  cTrunc ((e.screenCenterX : ℚ) + e.sinDeg (minuteAngleOf e) * (minuteHandLengthOf e : ℚ))

def minuteHandY (e : AnalogEnv) : ℤ :=
  cTrunc ((e.screenCenterY : ℚ) - e.cosDeg (minuteAngleOf e) * (minuteHandLengthOf e : ℚ))

def hourHandX (e : AnalogEnv) : ℤ :=
  cTrunc ((e.screenCenterX : ℚ) + e.sinDeg (hourAngleOf e) * (hourHandLengthOf e : ℚ))

def hourHandY (e : AnalogEnv) : ℤ :=
  cTrunc ((e.screenCenterY : ℚ) - e.cosDeg (hourAngleOf e) * (hourHandLengthOf e : ℚ))

/-- The seconds block of updateAnalogClock (arc_analog.h lines
156-229), reached when neither refresh guard fired: on a change to
second 0, clear the ring, erase both hands, redraw face and hands and
store their new positions; on any other change, draw one new segment;
store the new second. -/
def analogSecondsStep (e : AnalogEnv) (st : AnalogState) : AnalogState × List AnalogOp :=
  if e.seconds ≠ st.prevSecond then
    if e.seconds = 0 then
      ({ st with prevHourX := hourHandX e, prevHourY := hourHandY e,
                 prevHourAngle := hourAngleOf e,
                 prevMinuteX := minuteHandX e, prevMinuteY := minuteHandY e,
                 prevMinuteAngle := minuteAngleOf e, prevSecond := e.seconds },
       ((List.range 60).map fun i =>
          AnalogOp.secondsArc (270 + (i : ℤ) * 6) (270 + (i : ℤ) * 6 + 6) TFT_BLACK)
         ++ (if st.prevMinuteX ≠ -1 ∧ st.prevMinuteY ≠ -1 then
               eraseHandOps e.screenCenterX e.screenCenterY st.prevMinuteX st.prevMinuteY
             else [])
         ++ (if st.prevHourX ≠ -1 ∧ st.prevHourY ≠ -1 then
               eraseHandOps e.screenCenterX e.screenCenterY st.prevHourX st.prevHourY
             else [])
         ++ [AnalogOp.clockFace,
             AnalogOp.lineTo e.screenCenterX e.screenCenterY (hourHandX e) (hourHandY e)
               HOUR_HAND_COLOR,
             AnalogOp.lineTo e.screenCenterX e.screenCenterY (minuteHandX e) (minuteHandY e)
               MINUTE_HAND_COLOR,
             AnalogOp.centerDot])
    else
      ({ st with prevSecond := e.seconds },
       [AnalogOp.secondsArc (270 + e.seconds * 6 - 6) (270 + e.seconds * 6 - 6 + 6)
          SECOND_RING_COLOR])
  else (st, [])

/-- The minute-hand block of updateAnalogClock (lines 232-256). -/
def analogMinuteStep (e : AnalogEnv) (st : AnalogState) : AnalogState × List AnalogOp :=
  if minuteAngleOf e ≠ st.prevMinuteAngle then
    ({ st with prevMinuteX := minuteHandX e, prevMinuteY := minuteHandY e,
               prevMinuteAngle := minuteAngleOf e },
     (if st.prevMinuteX ≠ -1 ∧ st.prevMinuteY ≠ -1 then
        eraseHandOps e.screenCenterX e.screenCenterY st.prevMinuteX st.prevMinuteY
      else [])
       ++ [AnalogOp.lineTo e.screenCenterX e.screenCenterY (minuteHandX e) (minuteHandY e)
             MINUTE_HAND_COLOR])
  else (st, [])

/-- The hour-hand block of updateAnalogClock (lines 259-283). -/
def analogHourStep (e : AnalogEnv) (st : AnalogState) : AnalogState × List AnalogOp :=
  if hourAngleOf e ≠ st.prevHourAngle then
    ({ st with prevHourX := hourHandX e, prevHourY := hourHandY e,
               prevHourAngle := hourAngleOf e },
     (if st.prevHourX ≠ -1 ∧ st.prevHourY ≠ -1 then
        eraseHandOps e.screenCenterX e.screenCenterY st.prevHourX st.prevHourY
      else [])
       ++ [AnalogOp.lineTo e.screenCenterX e.screenCenterY (hourHandX e) (hourHandY e)
             HOUR_HAND_COLOR])
  else (st, [])

/-- updateAnalogClock (arc_analog.h lines 140-287).  The first guard
(seconds = 0 and minutes divisible by 5) only signals
`needClockRefresh` and returns; the second (dead, subsumed by the
first) also stores the second; otherwise the seconds ring, minute hand
and hour hand blocks run in order and the center dot is redrawn. -/
def updateAnalogClock (e : AnalogEnv) (st : AnalogState) : AnalogState × List AnalogOp :=
  if e.seconds = 0 ∧ Int.tmod e.minutes 5 = 0 then
    ({ st with needClockRefresh := true }, [])
  else if e.seconds ≠ st.prevSecond ∧ e.seconds = 0 ∧ Int.tmod e.minutes 15 = 0 then
    ({ st with needClockRefresh := true, prevSecond := e.seconds }, [])
  else
    ((analogHourStep e (analogMinuteStep e (analogSecondsStep e st).1).1).1,
     (analogSecondsStep e st).2
       ++ (analogMinuteStep e (analogSecondsStep e st).1).2
       ++ (analogHourStep e (analogMinuteStep e (analogSecondsStep e st).1).1).2
       ++ [AnalogOp.centerDot])

/-! ## utils.h -/

/-- The manual-increment branch of updateTimeAndDate (utils.h lines
54-69), taken when WiFi is disconnected: increment seconds and carry
into minutes and hours, wrapping each field to 0 at its modulus.
Returns the new `(hours, minutes, seconds)`. -/
def updateTimeAndDateManual (h m s : ℤ) : ℤ × ℤ × ℤ :=
  if s + 1 ≥ 60 then
    if m + 1 ≥ 60 then
      if h + 1 ≥ 24 then (0, 0, 0) else (h + 1, 0, 0)
    else (h, m + 1, 0)
  else (h, m, s + 1)

/-! ## theme_manager.h -/

/-- Settings-relevant EEPROM contents: the byte at VALID_FLAG_ADDRESS
and the two ints at THEME_ADDRESS and MODE_ADDRESS. -/
structure EEPROMSettings where
  validFlag : ℕ
  themeIdSlot : ℤ
  modeSlot : ℤ
deriving DecidableEq, Repr

def VALID_SETTINGS_FLAG : ℕ := 0xAA

def MODE_TOTAL : ℤ := 3

/-- loadSavedThemeAndMode (theme_manager.h lines 235-262).  The C
function writes through its two out-pointers only on success; the
model takes the caller's current values and returns
`(returnValue, loadedMode, loadedThemeId)`. -/
def loadSavedThemeAndMode (e : EEPROMSettings) (loadedMode loadedThemeId : ℤ) :
    Bool × ℤ × ℤ :=
  if e.validFlag ≠ VALID_SETTINGS_FLAG then
    (false, loadedMode, loadedThemeId)
  else
    -- savedThemeId / savedMode are the two EEPROM reads.
    if e.modeSlot < 0 ∨ e.modeSlot ≥ MODE_TOTAL then
      (false, loadedMode, loadedThemeId)
    else
      (true, e.modeSlot, e.themeIdSlot)

/-- LED color structure of theme_manager.h. -/
structure LEDColors where
  r : ℤ
  g : ℤ
  b : ℤ
  tft_color : ℕ
deriving DecidableEq, Repr

/-- Theme name constants of theme_manager.h, as character lists. -/
def THEME_IRONMAN : List Char := ['i', 'r', 'o', 'n', 'm', 'a', 'n']

def THEME_HULK : List Char := ['h', 'u', 'l', 'k']

def THEME_CAPTAIN : List Char := ['c', 'a', 'p', 't', 'a', 'i', 'n']

def THEME_THOR : List Char := ['t', 'h', 'o', 'r']

def THEME_BLACK_WIDOW : List Char := ['w', 'i', 'd', 'o', 'w']

def THEME_SPIDERMAN : List Char := ['s', 'p', 'i', 'd', 'e', 'r', 'm', 'a', 'n']

def THEME_ID_IRONMAN : ℤ := 1

def THEME_ID_HULK : ℤ := 2

def THEME_ID_CAPTAIN : ℤ := 3

def THEME_ID_THOR : ℤ := 4

def THEME_ID_BLACK_WIDOW : ℤ := 5

def THEME_ID_SPIDERMAN : ℤ := 6

/-- The theme-relevant globals written by setThemeFromFilename:
`currentThemeName`, `currentThemeId`, `modeColors[0]`, `modeColors[1]`. -/
structure ThemeState where
  currentThemeName : List Char
  currentThemeId : ℤ
  modeColors0 : LEDColors
  modeColors1 : LEDColors
deriving DecidableEq, Repr

/-- `String.indexOf(pat) >= 0`: `pat` occurs as a contiguous substring. -/
def containsSub (pat : List Char) : List Char → Bool
  | [] => pat.isEmpty
  | c :: rest => pat.isPrefixOf (c :: rest) || containsSub pat rest

def slashChar : Char := ('/')

/-- `fname.startsWith("/")` followed by `fname.substring(1)`. -/
def stripLeadingSlash : List Char → List Char
  | [] => []
  | c :: rest => if c = slashChar then rest else c :: rest

/-- The cleaned filename setThemeFromFilename matches against:
lowercased, with a leading slash removed. -/
def cleanFilename (filename : List Char) : List Char :=
  stripLeadingSlash (filename.map Char.toLower)

/-- setThemeFromFilename (theme_manager.h lines 88-159): lowercase the
filename, strip a leading slash, install the Iron Man default, then
take the first match in the chain ironman / hulk / captain / thor /
widow / spiderman.  The EEPROM save at the end is an external side
effect and not part of the returned theme state. -/
def setThemeFromFilename (filename : List Char) : ThemeState :=
  let fname := cleanFilename filename
  if containsSub THEME_IRONMAN fname then
    ⟨THEME_IRONMAN, THEME_ID_IRONMAN, ⟨0, 20, 255, 0x051F⟩, ⟨0, 20, 255, 0x051F⟩⟩
  else if containsSub THEME_HULK fname then
    ⟨THEME_HULK, THEME_ID_HULK, ⟨0, 255, 50, 0x07E0⟩, ⟨0, 255, 50, 0x07E0⟩⟩
  else if containsSub THEME_CAPTAIN fname then
    ⟨THEME_CAPTAIN, THEME_ID_CAPTAIN, ⟨0, 50, 255, 0x037F⟩, ⟨0, 50, 255, 0x037F⟩⟩
  else if containsSub THEME_THOR fname then
    ⟨THEME_THOR, THEME_ID_THOR, ⟨255, 255, 0, 0xFFE0⟩, ⟨255, 255, 0, 0xFFE0⟩⟩
  else if containsSub THEME_BLACK_WIDOW fname then
    ⟨THEME_BLACK_WIDOW, THEME_ID_BLACK_WIDOW, ⟨255, 0, 0, 0xF800⟩, ⟨255, 0, 0, 0xF800⟩⟩
  else if containsSub THEME_SPIDERMAN fname then
    ⟨THEME_SPIDERMAN, THEME_ID_SPIDERMAN, ⟨255, 0, 0, 0xF800⟩, ⟨255, 0, 0, 0xF800⟩⟩
  else
    ⟨THEME_IRONMAN, THEME_ID_IRONMAN, ⟨0, 20, 255, 0x051F⟩, ⟨0, 20, 255, 0x051F⟩⟩

/-- The claim's reading of the dispatch ("the first matching substring
in the fixed priority order ironman, hulk, captain, thor, widow,
spiderman determines the theme; no match yields Iron Man"), as a
standalone function on the cleaned filename, to be compared with
`setThemeFromFilename`. -/
def claimPriorityThemeId (fname : List Char) : ℤ :=
  if containsSub THEME_IRONMAN fname then THEME_ID_IRONMAN
  else if containsSub THEME_HULK fname then THEME_ID_HULK
  else if containsSub THEME_CAPTAIN fname then THEME_ID_CAPTAIN
  else if containsSub THEME_THOR fname then THEME_ID_THOR
  else if containsSub THEME_BLACK_WIDOW fname then THEME_ID_BLACK_WIDOW
  else if containsSub THEME_SPIDERMAN fname then THEME_ID_SPIDERMAN
  else THEME_ID_IRONMAN

/-- Whether a draw operation paints with color `c`. -/
def usesColor (c : ℕ) : DrawOp → Bool
  | DrawOp.ring _ _ _ _ c' => c' = c
  | DrawOp.fillScreen c' => c' = c
  | DrawOp.timeDigits => false

/-! ## Helper lemmas -/

theorem ringColorAt_nil (r : ℤ) (init : ℕ) (a : ℚ) :
    ringColorAt r init [] a = init := rfl

theorem ringColorAt_append (r : ℤ) (init : ℕ) (ops1 ops2 : List DrawOp) (a : ℚ) :
    ringColorAt r init (ops1 ++ ops2) a =
      ringColorAt r (ringColorAt r init ops1 a) ops2 a := by
  unfold ringColorAt
  rw [List.foldl_append]

theorem ringColorAt_of_no_paint (r : ℤ) (init : ℕ) (ops : List DrawOp) (a : ℚ)
    (h : ∀ op ∈ ops, opPaints r a op = none) :
    ringColorAt r init ops a = init := by
  induction ops with
  | nil => rfl
  | cons op rest ih =>
    have h1 : opPaints r a op = none := h op (List.mem_cons_self op rest)
    have h2 : ∀ o ∈ rest, opPaints r a o = none := fun o ho => h o (List.mem_cons_of_mem op ho)
    unfold ringColorAt at ih ⊢
    simp [List.foldl_cons, h1, ih h2]

/-- After any updateAppleRingsTime call, the stored previous values
equal the time just rendered and the background is marked drawn. -/
theorem updateAppleRingsTime_state (t : TimeVars) (s : RingsState) :
    (updateAppleRingsTime t s).1 = ⟨t.hours, t.minutes, t.seconds, true⟩ := by
  unfold updateAppleRingsTime drawAppleRingsInterface forceCorrectRingDisplay
  by_cases hf : s.fullRedrawDone = false
  · simp [hf]
  · rw [if_neg hf]
    dsimp only
    simp only [RingsState.mk.injEq]
    refine ⟨?_, ?_, ?_, trivial⟩ <;> split_ifs <;> simp_all

/-- After any updateDigitalTime call the stored previous values equal
the inputs just processed. -/
theorem updateDigitalTime_state (t : TimeVars) (c : Bool) (p : Option Bool)
    (s : DigitalState) :
    (updateDigitalTime t c p s).1 = ⟨t.hours, t.minutes, t.seconds, c⟩ := by
  unfold updateDigitalTime
  by_cases h : t.hours ≠ s.prevHours ∨ t.minutes ≠ s.prevMinutes ∨
      t.seconds ≠ s.prevSeconds ∨ c ≠ s.prevColonState
  · rw [if_pos h]
  · rw [if_neg h]
    push_neg at h
    obtain ⟨h1, h2, h3, h4⟩ := h
    cases s
    simp_all

/-- C2: calling the renderer's update a second time in a row with the
same time value (and unchanged colon state for the digital renderer)
emits no draw operations on the second call and leaves the stored
previous-value state unchanged, both for updateAppleRingsTime and for
updateDigitalTime. -/
theorem render_idempotent_second_call :
    (∀ (t : TimeVars) (s0 : RingsState),
      updateAppleRingsTime t (updateAppleRingsTime t s0).1 =
        ((updateAppleRingsTime t s0).1, [])) ∧
    (∀ (t : TimeVars) (c : Bool) (p : Option Bool) (s0 : DigitalState),
      updateDigitalTime t c p (updateDigitalTime t c p s0).1 =
        ((updateDigitalTime t c p s0).1, [])) := by
  constructor
  · intro t s0
    rw [updateAppleRingsTime_state]
    unfold updateAppleRingsTime
    simp
  · intro t c p s0
    rw [updateDigitalTime_state]
    unfold updateDigitalTime
    simp

/-- C6: for each units-per-revolution `u` in {12, 24, 60} the end
angle `-90 + v * (360 / u)` starts at -90 for `v = 0`, the per-unit
degree constants hard-coded in the renderer (30, 15, 6) agree with
`360 / u`, and the end angle is monotonically non-decreasing in the
value over `[0, u)`. -/
theorem endAngle_math (u : ℚ) (hu : u = 12 ∨ u = 24 ∨ u = 60) :
    endAngleOf 0 u = -90 ∧
    unitAngleDegrees 12 = hourDegrees false ∧
    unitAngleDegrees 24 = hourDegrees true ∧
    unitAngleDegrees 60 = 6 ∧
    (∀ v w : ℚ, 0 ≤ v → v ≤ w → w < u → endAngleOf v u ≤ endAngleOf w u) := by
  refine ⟨by norm_num [endAngleOf], by norm_num [unitAngleDegrees, hourDegrees],
    by norm_num [unitAngleDegrees, hourDegrees], by norm_num [unitAngleDegrees], ?_⟩
  intro v w h0 hvw hw
  rcases hu with h | h | h <;> subst h <;>
    simp only [endAngleOf, unitAngleDegrees] <;> norm_num <;> linarith

theorem endAngle_math_witness :
    endAngleOf 0 60 = -90 ∧ endAngleOf 10 60 ≤ endAngleOf 45 60 := by
  have h := endAngle_math 60 (by norm_num)
  exact ⟨h.1, h.2.2.2.2 10 45 (by norm_num) (by norm_num) (by norm_num)⟩

/-- C9: loadSavedThemeAndMode succeeds exactly when the valid-settings
byte is 0xAA and the saved mode lies in `[0, MODE_TOTAL)`; on failure
the caller's output variables are left untouched. -/
theorem loadSavedThemeAndMode_spec (e : EEPROMSettings) (m0 t0 : ℤ) :
    ((loadSavedThemeAndMode e m0 t0).1 = true ↔
      e.validFlag = VALID_SETTINGS_FLAG ∧ 0 ≤ e.modeSlot ∧ e.modeSlot < MODE_TOTAL) ∧
    ((loadSavedThemeAndMode e m0 t0).1 = false →
      (loadSavedThemeAndMode e m0 t0).2 = (m0, t0)) := by
  unfold loadSavedThemeAndMode
  split_ifs with h1 h2
  · constructor
    · simp only [Bool.false_eq_true, false_iff]
      intro hc
      exact h1 hc.1
    · intro _
      rfl
  · constructor
    · simp only [Bool.false_eq_true, false_iff]
      intro hc
      rcases h2 with h2 | h2
      · omega
      · exact absurd hc.2.2 (by omega)
    · intro _
      rfl
  · push_neg at h1 h2
    constructor
    · simp only [true_iff]
      exact ⟨h1, h2.1, h2.2⟩
    · intro hfalse
      exact absurd hfalse (by simp)

theorem loadSavedThemeAndMode_witness :
    (loadSavedThemeAndMode ⟨0xAB, 4, 2⟩ 7 9).2 = (7, 9) ∧
    (loadSavedThemeAndMode ⟨0xAA, 4, 2⟩ 7 9).1 = true := by
  refine ⟨(loadSavedThemeAndMode_spec ⟨0xAB, 4, 2⟩ 7 9).2 (by decide), ?_⟩
  exact ((loadSavedThemeAndMode_spec ⟨0xAA, 4, 2⟩ 7 9).1).mpr (by decide)

/-- C10: setThemeFromFilename always lands on one of the six known
themes with matching digital/analog colors; a filename containing none
of the theme substrings yields the Iron Man default; and the resulting
theme id is the first match in the fixed priority order ironman, hulk,
captain, thor, widow, spiderman over the cleaned filename. -/
theorem setThemeFromFilename_spec (f : List Char) :
    (setThemeFromFilename f).currentThemeId ∈
      [THEME_ID_IRONMAN, THEME_ID_HULK, THEME_ID_CAPTAIN, THEME_ID_THOR,
        THEME_ID_BLACK_WIDOW, THEME_ID_SPIDERMAN] ∧
    (setThemeFromFilename f).modeColors0 = (setThemeFromFilename f).modeColors1 ∧
    ((containsSub THEME_IRONMAN (cleanFilename f) = false ∧
      containsSub THEME_HULK (cleanFilename f) = false ∧
      containsSub THEME_CAPTAIN (cleanFilename f) = false ∧
      containsSub THEME_THOR (cleanFilename f) = false ∧
      containsSub THEME_BLACK_WIDOW (cleanFilename f) = false ∧
      containsSub THEME_SPIDERMAN (cleanFilename f) = false) →
      setThemeFromFilename f =
        ⟨THEME_IRONMAN, THEME_ID_IRONMAN, ⟨0, 20, 255, 0x051F⟩, ⟨0, 20, 255, 0x051F⟩⟩) ∧
    (setThemeFromFilename f).currentThemeId = claimPriorityThemeId (cleanFilename f) := by
  simp only [setThemeFromFilename, claimPriorityThemeId]
  split_ifs <;> refine ⟨by decide, rfl, fun hh => ?_, rfl⟩ <;> simp_all

theorem setThemeFromFilename_witness :
    setThemeFromFilename ['a', 'b', 'c'] =
      ⟨THEME_IRONMAN, THEME_ID_IRONMAN, ⟨0, 20, 255, 0x051F⟩, ⟨0, 20, 255, 0x051F⟩⟩ :=
  (setThemeFromFilename_spec ['a', 'b', 'c']).2.2.1 (by decide)

theorem covered_zero_360 (a : ℚ) (h0 : 0 ≤ a) (h1 : a < 360) : covered 0 360 a :=
  Or.inl ⟨h0, h1.le⟩

theorem ringColorAt_ite_single_ne (r r' : ℤ) (hne : r' ≠ r) (c : Prop) [Decidable c]
    (th : ℤ) (s e : ℚ) (col : ℕ) (init : ℕ) (a : ℚ) :
    ringColorAt r init (if c then [DrawOp.ring r' th s e col] else []) a = init := by
  split_ifs
  · simp [ringColorAt, opPaints, hne]
  · rfl

/-- C1: on the 60-unit seconds ring, any render sequence ending
58 → 59 → 0 makes the rollover step redraw the full background track
and emit no APPLE_RED foreground at all, and the seconds ring ends in
the same visual state (uniformly the dark-red background track) as a
freshly initialized interface drawn at second 0. -/
theorem rollover_seconds_ring (h m : ℤ) (b : Bool) (s0 s1 s2 s3 : RingsState)
    (ops1 ops2 ops3 : List DrawOp)
    (h1 : updateAppleRingsTime ⟨h, m, 58, b⟩ s0 = (s1, ops1))
    (h2 : updateAppleRingsTime ⟨h, m, 59, b⟩ s1 = (s2, ops2))
    (h3 : updateAppleRingsTime ⟨h, m, 0, b⟩ s2 = (s3, ops3)) :
    DrawOp.ring SECONDS_RING_RADIUS RING_THICKNESS 0 360 APPLE_RED_BG ∈ ops3 ∧
    (∀ op ∈ ops3, usesColor APPLE_RED op = false) ∧
    (∀ a : ℚ, 0 ≤ a → a < 360 → ∀ init : ℕ,
      ringColorAt SECONDS_RING_RADIUS init (ops1 ++ ops2 ++ ops3) a = APPLE_RED_BG ∧
      ringColorAt SECONDS_RING_RADIUS init (drawAppleRingsInterface ⟨h, m, 0, b⟩).2 a =
        APPLE_RED_BG) := by
  have hs1 : s1 = ⟨h, m, 58, true⟩ := by
    have := updateAppleRingsTime_state ⟨h, m, 58, b⟩ s0
    rw [h1] at this
    exact this
  subst hs1
  have hs2 : s2 = ⟨h, m, 59, true⟩ := by
    have := updateAppleRingsTime_state ⟨h, m, 59, b⟩ ⟨h, m, 58, true⟩
    rw [h2] at this
    exact this
  subst hs2
  have hstep3 : updateAppleRingsTime ⟨h, m, 0, b⟩ ⟨h, m, 59, true⟩ =
      (⟨h, m, 0, true⟩,
        [DrawOp.ring SECONDS_RING_RADIUS (RING_THICKNESS + 2) 0 360 APPLE_RINGS_BG,
         DrawOp.ring SECONDS_RING_RADIUS RING_THICKNESS 0 360 APPLE_RED_BG,
         DrawOp.timeDigits]) := by
    unfold updateAppleRingsTime secondsRingOps
    norm_num
  rw [h3] at hstep3
  have hops3 : ops3 =
      [DrawOp.ring SECONDS_RING_RADIUS (RING_THICKNESS + 2) 0 360 APPLE_RINGS_BG,
       DrawOp.ring SECONDS_RING_RADIUS RING_THICKNESS 0 360 APPLE_RED_BG,
       DrawOp.timeDigits] := congrArg Prod.snd hstep3
  subst hops3
  refine ⟨by decide, by decide, ?_⟩
  intro a ha0 ha1 init
  have hcov : covered 0 360 a := covered_zero_360 a ha0 ha1
  constructor
  · rw [ringColorAt_append]
    simp [ringColorAt, opPaints, hcov]
  · simp only [drawAppleRingsInterface, forceCorrectRingDisplay]
    by_cases hH : (0 : ℤ) < displayHoursOf b h <;>
      by_cases hM : (0 : ℤ) < m <;>
      simp [ringColorAt, opPaints, hcov, hH, hM, HOURS_RING_RADIUS, MINUTES_RING_RADIUS,
        SECONDS_RING_RADIUS]


theorem rollover_seconds_ring_witness :
    DrawOp.ring SECONDS_RING_RADIUS RING_THICKNESS 0 360 APPLE_RED_BG ∈
      [DrawOp.ring SECONDS_RING_RADIUS (RING_THICKNESS + 2) 0 360 APPLE_RINGS_BG,
       DrawOp.ring SECONDS_RING_RADIUS RING_THICKNESS 0 360 APPLE_RED_BG,
       DrawOp.timeDigits] :=
  (rollover_seconds_ring 1 2 true ⟨1, 2, 45, true⟩ ⟨1, 2, 58, true⟩ ⟨1, 2, 59, true⟩
    ⟨1, 2, 0, true⟩
    [DrawOp.ring SECONDS_RING_RADIUS RING_THICKNESS (-90) 258 APPLE_RED, DrawOp.timeDigits]
    [DrawOp.ring SECONDS_RING_RADIUS RING_THICKNESS (-90) 264 APPLE_RED, DrawOp.timeDigits]
    [DrawOp.ring SECONDS_RING_RADIUS (RING_THICKNESS + 2) 0 360 APPLE_RINGS_BG,
     DrawOp.ring SECONDS_RING_RADIUS RING_THICKNESS 0 360 APPLE_RED_BG,
     DrawOp.timeDigits]
    (by norm_num [updateAppleRingsTime, secondsRingOps])
    (by norm_num [updateAppleRingsTime, secondsRingOps])
    (by norm_num [updateAppleRingsTime, secondsRingOps])).1

/-- C3: from a tracked state with previous value 45 on both 60-unit
rings, rendering value 10 redraws the full background track and paints
exactly the foreground arc from -90° to endAngle(10) = -30°: at every
angular position the ring shows the foreground color inside `[-90,-30]`
and the background-track color outside it, for any prior contents. -/
theorem backward_jump_redraw (h : ℤ) (b : Bool) (s1 : RingsState) (ops : List DrawOp)
    (hupd : updateAppleRingsTime ⟨h, 10, 10, b⟩ ⟨h, 45, 45, true⟩ = (s1, ops)) :
    endAngleOf 10 60 = -30 ∧
    DrawOp.ring MINUTES_RING_RADIUS RING_THICKNESS 0 360 APPLE_GREEN_BG ∈ ops ∧
    DrawOp.ring MINUTES_RING_RADIUS RING_THICKNESS (-90) (-30) APPLE_GREEN ∈ ops ∧
    DrawOp.ring SECONDS_RING_RADIUS RING_THICKNESS 0 360 APPLE_RED_BG ∈ ops ∧
    DrawOp.ring SECONDS_RING_RADIUS RING_THICKNESS (-90) (-30) APPLE_RED ∈ ops ∧
    (∀ a : ℚ, 0 ≤ a → a < 360 → ∀ init : ℕ,
      ringColorAt MINUTES_RING_RADIUS init ops a =
        (if covered (-90) (-30) a then APPLE_GREEN else APPLE_GREEN_BG) ∧
      ringColorAt SECONDS_RING_RADIUS init ops a =
        (if covered (-90) (-30) a then APPLE_RED else APPLE_RED_BG)) := by
  have hstep : updateAppleRingsTime ⟨h, 10, 10, b⟩ ⟨h, 45, 45, true⟩ =
      (⟨h, 10, 10, true⟩,
        [DrawOp.ring MINUTES_RING_RADIUS RING_THICKNESS 0 360 APPLE_GREEN_BG,
         DrawOp.ring MINUTES_RING_RADIUS RING_THICKNESS (-90) (-30) APPLE_GREEN,
         DrawOp.ring SECONDS_RING_RADIUS RING_THICKNESS 0 360 APPLE_RED_BG,
         DrawOp.ring SECONDS_RING_RADIUS RING_THICKNESS (-90) (-30) APPLE_RED,
         DrawOp.timeDigits]) := by
    unfold updateAppleRingsTime minutesRingOps secondsRingOps
    norm_num
  rw [hupd] at hstep
  have hops : ops =
      [DrawOp.ring MINUTES_RING_RADIUS RING_THICKNESS 0 360 APPLE_GREEN_BG,
       DrawOp.ring MINUTES_RING_RADIUS RING_THICKNESS (-90) (-30) APPLE_GREEN,
       DrawOp.ring SECONDS_RING_RADIUS RING_THICKNESS 0 360 APPLE_RED_BG,
       DrawOp.ring SECONDS_RING_RADIUS RING_THICKNESS (-90) (-30) APPLE_RED,
       DrawOp.timeDigits] := congrArg Prod.snd hstep
  subst hops
  refine ⟨by norm_num [endAngleOf, unitAngleDegrees], by simp, by simp, by simp, by simp, ?_⟩
  intro a ha0 ha1 init
  have hcov : covered 0 360 a := covered_zero_360 a ha0 ha1
  constructor <;> by_cases hc : covered (-90) (-30) a <;>
    simp [ringColorAt, opPaints, hc, hcov, MINUTES_RING_RADIUS, SECONDS_RING_RADIUS]

theorem backward_jump_redraw_witness :
    DrawOp.ring MINUTES_RING_RADIUS RING_THICKNESS 0 360 APPLE_GREEN_BG ∈
      [DrawOp.ring MINUTES_RING_RADIUS RING_THICKNESS 0 360 APPLE_GREEN_BG,
       DrawOp.ring MINUTES_RING_RADIUS RING_THICKNESS (-90) (-30) APPLE_GREEN,
       DrawOp.ring SECONDS_RING_RADIUS RING_THICKNESS 0 360 APPLE_RED_BG,
       DrawOp.ring SECONDS_RING_RADIUS RING_THICKNESS (-90) (-30) APPLE_RED,
       DrawOp.timeDigits] :=
  (backward_jump_redraw 7 false ⟨7, 10, 10, true⟩
    [DrawOp.ring MINUTES_RING_RADIUS RING_THICKNESS 0 360 APPLE_GREEN_BG,
     DrawOp.ring MINUTES_RING_RADIUS RING_THICKNESS (-90) (-30) APPLE_GREEN,
     DrawOp.ring SECONDS_RING_RADIUS RING_THICKNESS 0 360 APPLE_RED_BG,
     DrawOp.ring SECONDS_RING_RADIUS RING_THICKNESS (-90) (-30) APPLE_RED,
     DrawOp.timeDigits]
    (by norm_num [updateAppleRingsTime, minutesRingOps, secondsRingOps])).2.1

/-- C4: in 12-hour mode, feeding the hours ring the sequence of wall
hours 11 → 12 → 13 (display values 11 → 12 → 1) renders hour 12 as a
foreground arc from -90° to 270° — a full circle, covering every
angular position — and then hour 13 (display 1) as a single-unit 30°
sweep from -90° to -60°; both end angles are `-90 + display * 30` with
the 12-hour remap (0 ↦ 12) applied before the angle computation. -/
theorem twelve_hour_remap (m sec : ℤ) (sA sB : RingsState) (opsA opsB : List DrawOp)
    (hA : updateAppleRingsTime ⟨12, m, sec, false⟩ ⟨11, m, sec, true⟩ = (sA, opsA))
    (hB : updateAppleRingsTime ⟨13, m, sec, false⟩ sA = (sB, opsB)) :
    displayHoursOf false 12 = 12 ∧
    displayHoursOf false 13 = 1 ∧
    opsA = [DrawOp.ring HOURS_RING_RADIUS RING_THICKNESS 0 360 APPLE_BLUE_BG,
            DrawOp.ring HOURS_RING_RADIUS RING_THICKNESS (-90) 270 APPLE_BLUE,
            DrawOp.timeDigits] ∧
    (-90 : ℚ) + (displayHoursOf false 12 : ℚ) * hourDegrees false = 270 ∧
    (∀ a : ℚ, 0 ≤ a → a < 360 → covered (-90) 270 a) ∧
    opsB = [DrawOp.ring HOURS_RING_RADIUS RING_THICKNESS 0 360 APPLE_BLUE_BG,
            DrawOp.ring HOURS_RING_RADIUS RING_THICKNESS (-90) (-60) APPLE_BLUE,
            DrawOp.timeDigits] ∧
    (-90 : ℚ) + (displayHoursOf false 13 : ℚ) * hourDegrees false = -60 ∧
    (-60 : ℚ) - (-90) = unitAngleDegrees 12 := by
  have hstepA : updateAppleRingsTime ⟨12, m, sec, false⟩ ⟨11, m, sec, true⟩ =
      (⟨12, m, sec, true⟩,
       [DrawOp.ring HOURS_RING_RADIUS RING_THICKNESS 0 360 APPLE_BLUE_BG,
        DrawOp.ring HOURS_RING_RADIUS RING_THICKNESS (-90) 270 APPLE_BLUE,
        DrawOp.timeDigits]) := by
    unfold updateAppleRingsTime hoursRingOps
    norm_num [displayHoursOf, hourDegrees]
  rw [hA] at hstepA
  have hsA : sA = ⟨12, m, sec, true⟩ := congrArg Prod.fst hstepA
  have hopsA : opsA =
      [DrawOp.ring HOURS_RING_RADIUS RING_THICKNESS 0 360 APPLE_BLUE_BG,
       DrawOp.ring HOURS_RING_RADIUS RING_THICKNESS (-90) 270 APPLE_BLUE,
       DrawOp.timeDigits] := congrArg Prod.snd hstepA
  subst hsA
  have hstepB : updateAppleRingsTime ⟨13, m, sec, false⟩ ⟨12, m, sec, true⟩ =
      (⟨13, m, sec, true⟩,
       [DrawOp.ring HOURS_RING_RADIUS RING_THICKNESS 0 360 APPLE_BLUE_BG,
        DrawOp.ring HOURS_RING_RADIUS RING_THICKNESS (-90) (-60) APPLE_BLUE,
        DrawOp.timeDigits]) := by
    unfold updateAppleRingsTime hoursRingOps
    norm_num [displayHoursOf, hourDegrees, show Int.tmod 13 12 = 1 from by decide]
  rw [hB] at hstepB
  have hopsB : opsB =
      [DrawOp.ring HOURS_RING_RADIUS RING_THICKNESS 0 360 APPLE_BLUE_BG,
       DrawOp.ring HOURS_RING_RADIUS RING_THICKNESS (-90) (-60) APPLE_BLUE,
       DrawOp.timeDigits] := congrArg Prod.snd hstepB
  refine ⟨by decide, by decide, hopsA, ?_, ?_, hopsB, ?_, ?_⟩
  · norm_num [displayHoursOf, hourDegrees]
  · intro a ha0 ha1
    by_cases hc : a ≤ 270
    · exact Or.inl ⟨by linarith, hc⟩
    · exact Or.inr ⟨by linarith, by linarith⟩
  · norm_num [displayHoursOf, hourDegrees, show Int.tmod 13 12 = 1 from by decide]
  · norm_num [unitAngleDegrees]

theorem twelve_hour_remap_witness :
    displayHoursOf false 12 = 12 ∧ displayHoursOf false 13 = 1 :=
  have hth := twelve_hour_remap 20 30 ⟨12, 20, 30, true⟩ ⟨13, 20, 30, true⟩
    [DrawOp.ring HOURS_RING_RADIUS RING_THICKNESS 0 360 APPLE_BLUE_BG,
     DrawOp.ring HOURS_RING_RADIUS RING_THICKNESS (-90) 270 APPLE_BLUE,
     DrawOp.timeDigits]
    [DrawOp.ring HOURS_RING_RADIUS RING_THICKNESS 0 360 APPLE_BLUE_BG,
     DrawOp.ring HOURS_RING_RADIUS RING_THICKNESS (-90) (-60) APPLE_BLUE,
     DrawOp.timeDigits]
    (by norm_num [updateAppleRingsTime, hoursRingOps, displayHoursOf, hourDegrees])
    (by norm_num [updateAppleRingsTime, hoursRingOps, displayHoursOf, hourDegrees,
      show Int.tmod 13 12 = 1 from by decide])
  ⟨hth.1, hth.2.1⟩

/-- C5: a drawRing call whose end angle is below its start angle (with
the angles in the ranges the firmware uses: `0 ≤ e < s ≤ 360`)
rasterizes exactly the two arcs `[s, 360]` and `[0, e]`, and the
angular region covered by that pair is precisely the union of the two
plain intervals — the same region for every center, radius, thickness
and color, since those arguments do not enter the angular split. -/
theorem drawRing_crossing_split (n : ℕ) (s e : ℚ)
    (h0 : 0 ≤ e) (hes : e < s) (hs : s ≤ 360) :
    drawRingArcs (n + 2) s e = some [(s, 360), (0, e)] ∧
    (∀ a : ℚ, arcsCover [(s, 360), (0, e)] a ↔
      ((s ≤ a ∧ a ≤ 360) ∨ (0 ≤ a ∧ a ≤ e))) := by
  constructor
  · show drawRingArcs (n + 1 + 1) s e = _
    simp only [drawRingArcs]
    rw [if_pos hes, if_neg (by linarith : ¬(360 : ℚ) < s),
      if_neg (by linarith : ¬e < (0 : ℚ))]
    rfl
  · intro a
    simp [arcsCover]

theorem drawRing_crossing_split_witness :
    drawRingArcs 2 350 10 = some [(350, 360), (0, 10)] :=
  (drawRing_crossing_split 0 350 10 (by norm_num) (by norm_num) (by norm_num)).1

theorem analogSecondsStep_state (e : AnalogEnv) (st : AnalogState) :
    (analogSecondsStep e st).1.prevSecond = e.seconds ∧
    ((analogSecondsStep e st).1.prevMinuteAngle = st.prevMinuteAngle ∨
      (analogSecondsStep e st).1.prevMinuteAngle = minuteAngleOf e) ∧
    ((analogSecondsStep e st).1.prevHourAngle = st.prevHourAngle ∨
      (analogSecondsStep e st).1.prevHourAngle = hourAngleOf e) := by
  unfold analogSecondsStep
  split_ifs with h1 h2 <;> simp_all

theorem analogMinuteStep_state (e : AnalogEnv) (st : AnalogState) :
    (analogMinuteStep e st).1.prevMinuteAngle = minuteAngleOf e ∧
    (analogMinuteStep e st).1.prevSecond = st.prevSecond ∧
    (analogMinuteStep e st).1.prevHourAngle = st.prevHourAngle := by
  unfold analogMinuteStep
  split_ifs with h <;> simp_all

theorem analogHourStep_state (e : AnalogEnv) (st : AnalogState) :
    (analogHourStep e st).1.prevHourAngle = hourAngleOf e ∧
    (analogHourStep e st).1.prevSecond = st.prevSecond ∧
    (analogHourStep e st).1.prevMinuteAngle = st.prevMinuteAngle := by
  unfold analogHourStep
  split_ifs with h <;> simp_all

/-- C7 counterexample: at seconds = 0 with minutes divisible by 5, the
analog renderer's periodic-refresh branch returns early, leaving
`prevSecond` at its old value (59) although the current second is 0 —
so an update call does not always end with the stored previous value
equal to the current time value. -/
theorem analog_refresh_skips_prev_update :
    (updateAnalogClock ⟨1, 5, 0, 120, 120, 110, fun _ => 0, fun _ => 0⟩
        ⟨10, 10, 10, 10, 59, 0, 0, false⟩).1.prevSecond = 59 ∧
    AnalogEnv.seconds ⟨1, 5, 0, 120, 120, 110, fun _ => 0, fun _ => 0⟩ = 0 ∧
    (59 : ℤ) ≠ 0 := by
  refine ⟨rfl, rfl, by decide⟩

/-- C7 amended: updateAppleRingsTime always ends with its stored
previous values equal to the time just rendered; updateAnalogClock
does so too except in the periodic-refresh branch (seconds = 0 and
minutes divisible by 5), where it returns early, deferring the redraw
and leaving the previous values unchanged. -/
theorem prev_value_tracking_amended :
    (∀ (t : TimeVars) (s : RingsState),
      (updateAppleRingsTime t s).1 = ⟨t.hours, t.minutes, t.seconds, true⟩) ∧
    (∀ (e : AnalogEnv) (st : AnalogState),
      ¬(e.seconds = 0 ∧ Int.tmod e.minutes 5 = 0) →
      (updateAnalogClock e st).1.prevSecond = e.seconds ∧
      (updateAnalogClock e st).1.prevMinuteAngle =
        (e.minutes : ℚ) * 6 + (e.seconds : ℚ) * (1 / 10) ∧
      (updateAnalogClock e st).1.prevHourAngle =
        (e.hours : ℚ) * 30 + (e.minutes : ℚ) * (1 / 2)) := by
  constructor
  · exact updateAppleRingsTime_state
  · intro e st hg
    have h15 : ¬(e.seconds ≠ st.prevSecond ∧ e.seconds = 0 ∧ Int.tmod e.minutes 15 = 0) := by
      rintro ⟨-, hs0, hm15⟩
      exact hg ⟨hs0, Int.tmod_eq_zero_of_dvd
        (dvd_trans (by norm_num) (Int.dvd_of_tmod_eq_zero hm15))⟩
    unfold updateAnalogClock
    rw [if_neg hg, if_neg h15]
    refine ⟨?_, ?_, ?_⟩
    · show (analogHourStep e (analogMinuteStep e (analogSecondsStep e st).1).1).1.prevSecond = _
      rw [(analogHourStep_state _ _).2.1, (analogMinuteStep_state _ _).2.1,
        (analogSecondsStep_state _ _).1]
    · show (analogHourStep e
        (analogMinuteStep e (analogSecondsStep e st).1).1).1.prevMinuteAngle = _
      rw [(analogHourStep_state _ _).2.2, (analogMinuteStep_state _ _).1]
      rfl
    · show (analogHourStep e
        (analogMinuteStep e (analogSecondsStep e st).1).1).1.prevHourAngle = _
      rw [(analogHourStep_state _ _).1]
      rfl

theorem prev_value_tracking_amended_witness :
    (updateAnalogClock ⟨1, 7, 30, 120, 120, 110, fun _ => 0, fun _ => 0⟩
        ⟨-1, -1, -1, -1, -1, -1, -1, false⟩).1.prevSecond = 30 :=
  (prev_value_tracking_amended.2
    ⟨1, 7, 30, 120, 120, 110, fun _ => 0, fun _ => 0⟩
    ⟨-1, -1, -1, -1, -1, -1, -1, false⟩ (by decide)).1

/-- C8 counterexample: fed the out-of-range value seconds = 60 (after
45), updateAppleRingsTime performs no clamping: it draws the seconds
foreground arc up to `-90 + 60 * 6 = 270` degrees — a full circle —
instead of the arc ending at `-90 + 59 * 6 = 264` that clamping to
`unitsPerRevolution - 1` would produce. -/
theorem no_clamping_counterexample :
    (updateAppleRingsTime ⟨3, 10, 60, true⟩ ⟨3, 10, 45, true⟩).2 =
      [DrawOp.ring SECONDS_RING_RADIUS RING_THICKNESS (-90) 270 APPLE_RED,
       DrawOp.timeDigits] ∧
    DrawOp.ring SECONDS_RING_RADIUS RING_THICKNESS (-90) 264 APPLE_RED ∉
      (updateAppleRingsTime ⟨3, 10, 60, true⟩ ⟨3, 10, 45, true⟩).2 ∧
    (-90 : ℚ) + (60 : ℚ) * 6 = 270 := by
  have hops : (updateAppleRingsTime ⟨3, 10, 60, true⟩ ⟨3, 10, 45, true⟩).2 =
      [DrawOp.ring SECONDS_RING_RADIUS RING_THICKNESS (-90) 270 APPLE_RED,
       DrawOp.timeDigits] := by
    norm_num [updateAppleRingsTime, secondsRingOps]
  refine ⟨hops, ?_, by norm_num⟩
  rw [hops]
  norm_num [DrawOp.ring.injEq]
  rintro ⟨⟩

/-- C8 amended: the code never clamps anomalous values.  The only
out-of-range protection is in updateTimeAndDate's manual increment,
which wraps each field to 0 with carry (so offline ticking keeps all
fields in range), while the rings renderer feeds whatever value it is
given straight into the angle computation `-90 + value * 6`. -/
theorem anomalous_value_handling_amended :
    (∀ h m s : ℤ, 0 ≤ h → h < 24 → 0 ≤ m → m < 60 → 0 ≤ s → s < 60 →
      (0 ≤ (updateTimeAndDateManual h m s).1 ∧ (updateTimeAndDateManual h m s).1 < 24) ∧
      (0 ≤ (updateTimeAndDateManual h m s).2.1 ∧ (updateTimeAndDateManual h m s).2.1 < 60) ∧
      (0 ≤ (updateTimeAndDateManual h m s).2.2 ∧ (updateTimeAndDateManual h m s).2.2 < 60)) ∧
    (∀ (hh mm sec prev : ℤ) (b : Bool), sec ≠ prev → ¬(sec = 0 ∧ prev > 0) → prev ≠ -1 →
      sec > 0 →
      DrawOp.ring SECONDS_RING_RADIUS RING_THICKNESS (-90) (-90 + (sec : ℚ) * 6) APPLE_RED ∈
        (updateAppleRingsTime ⟨hh, mm, sec, b⟩ ⟨hh, mm, prev, true⟩).2) := by
  constructor
  · intro h m s h1 h2 h3 h4 h5 h6
    unfold updateTimeAndDateManual
    split_ifs <;> simp_all <;> omega
  · intro hh mm sec prev b hne hnro hprev hpos
    unfold updateAppleRingsTime secondsRingOps
    simp [hne, hnro, hprev, hpos]

theorem anomalous_value_handling_witness :
    DrawOp.ring SECONDS_RING_RADIUS RING_THICKNESS (-90) (-90 + (60 : ℚ) * 6) APPLE_RED ∈
      (updateAppleRingsTime ⟨3, 10, 60, true⟩ ⟨3, 10, 45, true⟩).2 :=
  anomalous_value_handling_amended.2 3 10 60 45 true (by decide) (by decide) (by decide)
    (by decide)
